import Mathlib

/-!
# Verification of the fq_codel sub-attribute codec

Shallow embedding of `src/rtnl/tc/nlas/qdisc/fq_codel.rs`: the `FqCodel`
parameter-set structure, its `Nla` implementation (`value_len`,
`emit_value`), the kind enumeration `TcaFqCodel` with its `From<u16>`
conversion, and the decoder `unmarshal_fq_codel` /
`unmarshal_fq_codel_attr`.

Modelling conventions:
* Machine integers are `Nat`; wherever Rust truncates (`u16`/`u32`
  native-byte-order serialization) the embedding takes `% 256` of each
  byte explicitly. Native byte order is modelled as little-endian
  (the reference platform is x86-64).
* Byte buffers are `List Nat`; a genuine byte buffer satisfies
  `∀ x ∈ buf, x < 256`.
* `DecodeError` carries only a message string, so it is embedded as
  `String` and decode results as `Except String FqCodel`.
* A Rust panic (slice-index out of bounds in `emit_value`, or the
  `unreachable!()` arm) is embedded as `Option.none`.
-/

namespace FqCodelCodec

/-- Modelled from the spec: the 4-byte sub-attribute header size
(`NLA_HEADER_LEN`, declared in `crate::nlas::tc`, not part of the
visible source; spec §4.1 wire-format table: 2-byte length plus
2-byte kind). -/
def NLA_HEADER_LEN : Nat := 4

/-- Modelled from the spec: the 4-byte payload size of one sub-attribute
(`ATTR_LEN`, declared in `crate::nlas::tc`, not part of the visible
source; spec §4.1 wire-format table: one 32-bit value). -/
def ATTR_LEN : Nat := 4

/-- `pub const FQ_CODEL_LEN: usize = 64;` -/
def FQ_CODEL_LEN : Nat := 64

/-- `enum TcaFqCodel` with its `#[repr]`-free discriminants 0..10. -/
inductive TcaFqCodel where
  | Unspec
  | Target
  | Limit
  | Interval
  | Ecn
  | Flows
  | Quantum
  | CeThreshold
  | DropBatchSize
  | MemoryLimit
  | Max
deriving DecidableEq, Repr, Inhabited

/-- `impl From<u16> for TcaFqCodel`. -/
def TcaFqCodel.fromU16 (v : Nat) : TcaFqCodel :=
  match v with
  | 0 => TcaFqCodel.Unspec
  | 1 => TcaFqCodel.Target
  | 2 => TcaFqCodel.Limit
  | 3 => TcaFqCodel.Interval
  | 4 => TcaFqCodel.Ecn
  | 5 => TcaFqCodel.Flows
  | 6 => TcaFqCodel.Quantum
  | 7 => TcaFqCodel.CeThreshold
  | 8 => TcaFqCodel.DropBatchSize
  | 9 => TcaFqCodel.MemoryLimit
  | _ => TcaFqCodel.Max

/-- `field.clone() as u16`: the declared discriminant of each variant. -/
def TcaFqCodel.toU16 : TcaFqCodel → Nat
  | TcaFqCodel.Unspec => 0
  | TcaFqCodel.Target => 1
  | TcaFqCodel.Limit => 2
  | TcaFqCodel.Interval => 3
  | TcaFqCodel.Ecn => 4
  | TcaFqCodel.Flows => 5
  | TcaFqCodel.Quantum => 6
  | TcaFqCodel.CeThreshold => 7
  | TcaFqCodel.DropBatchSize => 8
  | TcaFqCodel.MemoryLimit => 9
  | TcaFqCodel.Max => 10

/-- `struct FqCodel`: nine `u32` fields plus the wire-order record. -/
structure FqCodel where
  target : Nat
  limit : Nat
  interval : Nat
  ecn : Nat
  flows : Nat
  quantum : Nat
  ce_threshold : Nat
  drop_batch_size : Nat
  memory_limit : Nat
  order : List TcaFqCodel
deriving DecidableEq, Repr

/-- `FqCodel::default()`: all fields zero, empty order record. -/
def FqCodel.default : FqCodel :=
  ⟨0, 0, 0, 0, 0, 0, 0, 0, 0, []⟩

/-- `fn value_len(&self) -> usize { FQ_CODEL_LEN }` -/
def FqCodel.value_len (_ : FqCodel) : Nat := FQ_CODEL_LEN

/-! ## Native byte order (little-endian) serialization helpers -/

/-- `u16::to_ne_bytes` of a value held in a `u16`. -/
def u16_to_ne (v : Nat) : List Nat :=
  [v % 256, v / 256 % 256]

/-- `u32::to_ne_bytes` of a value held in a `u32`. -/
def u32_to_ne (v : Nat) : List Nat :=
  [v % 256, v / 256 % 256, v / 65536 % 256, v / 16777216 % 256]

/-- `u16::from_ne_bytes([b0, b1])`. -/
def u16_from_ne (b0 b1 : Nat) : Nat := b0 + 256 * b1

/-- `u32::from_ne_bytes([b0, b1, b2, b3])`. -/
def u32_from_ne (b0 b1 b2 b3 : Nat) : Nat :=
  b0 + 256 * b1 + 65536 * b2 + 16777216 * b3

/-! ## Decoder -/

/-- `fn unmarshal_fq_codel_attr(data: &[u8]) -> Result<(u16, u32), DecodeError>`.
Reads one sub-attribute record from the front of `data`, performing the
five structural validations of the source in order. -/
def unmarshal_fq_codel_attr (data : List Nat) : Except String (Nat × Nat) :=
  if data.length < NLA_HEADER_LEN then
    Except.error "fq_codel: invalid data"
  else
    let length := u16_from_ne (data.getD 0 0) (data.getD 1 0)
    let kind := u16_from_ne (data.getD 2 0) (data.getD 3 0)
    if length > data.length then
      Except.error "fq_codel: invalid data"
    else if length = 0 then
      Except.error "fq_codel: empty data"
    else if length < NLA_HEADER_LEN then
      Except.error "fq_codel: invalid data"
    else if length - NLA_HEADER_LEN ≠ ATTR_LEN then
      Except.error "fq_codel: invalid data"
    else
      Except.ok (kind,
        u32_from_ne (data.getD 4 0) (data.getD 5 0) (data.getD 6 0) (data.getD 7 0))

/-- The nine-armed `match kind` of `unmarshal_fq_codel`: assign the value
to the field selected by `k`, or `none` for the `_ =>` arm (the sentinel
kinds `Unspec` and `Max`). -/
def setField (fq : FqCodel) (k : TcaFqCodel) (v : Nat) : Option FqCodel :=
  match k with
  | TcaFqCodel.Target => some { fq with target := v }
  | TcaFqCodel.Limit => some { fq with limit := v }
  | TcaFqCodel.Interval => some { fq with interval := v }
  | TcaFqCodel.Ecn => some { fq with ecn := v }
  | TcaFqCodel.Flows => some { fq with flows := v }
  | TcaFqCodel.Quantum => some { fq with quantum := v }
  | TcaFqCodel.CeThreshold => some { fq with ce_threshold := v }
  | TcaFqCodel.DropBatchSize => some { fq with drop_batch_size := v }
  | TcaFqCodel.MemoryLimit => some { fq with memory_limit := v }
  | _ => none

/-- The `while offset < length` loop of `unmarshal_fq_codel`, expressed as
recursion on the unread suffix `data[offset..]`: each iteration parses one
record from the front, pushes its kind onto the order record, assigns the
field (or fails on a sentinel kind with `"fq_codel: unknown attribute"`),
and advances by the fixed `NLA_HEADER_LEN + ATTR_LEN = 8` bytes. -/
def unmarshal_loop (fq : FqCodel) (data : List Nat) : Except String FqCodel :=
  if h : data = [] then
    Except.ok fq
  else
    match unmarshal_fq_codel_attr data with
    | Except.error e => Except.error e
    | Except.ok (kindNum, attr) =>
      let kind := TcaFqCodel.fromU16 kindNum
      match setField { fq with order := fq.order ++ [kind] } kind attr with
      | some fq2 => unmarshal_loop fq2 (data.drop (NLA_HEADER_LEN + ATTR_LEN))
      | none => Except.error "fq_codel: unknown attribute"
termination_by data.length
decreasing_by
  simp only [List.length_drop, NLA_HEADER_LEN, ATTR_LEN]
  have : 0 < data.length := List.length_pos.mpr h
  omega

/-- `pub fn unmarshal_fq_codel(data: &[u8]) -> Result<FqCodel, DecodeError>`. -/
def unmarshal_fq_codel (data : List Nat) : Except String FqCodel :=
  unmarshal_loop FqCodel.default data

/-! ## Encoder -/

/-- `buffer[offset..offset + src.len()].copy_from_slice(&src)`:
`none` models the Rust panic when the slice range is out of bounds. -/
def copyFromSlice (buffer : List Nat) (offset : Nat) (src : List Nat) :
    Option (List Nat) :=
  if offset + src.length ≤ buffer.length then
    some (buffer.take offset ++ src ++ buffer.drop (offset + src.length))
  else
    none

/-- The `values` array of `emit_value` combined with the `match *field`
that selects from it: `none` models the `_ => unreachable!()` panic. -/
def fieldValue (fq : FqCodel) (k : TcaFqCodel) : Option Nat :=
  match k with
  | TcaFqCodel.Target => some fq.target
  | TcaFqCodel.Limit => some fq.limit
  | TcaFqCodel.Interval => some fq.interval
  | TcaFqCodel.Ecn => some fq.ecn
  | TcaFqCodel.Flows => some fq.flows
  | TcaFqCodel.Quantum => some fq.quantum
  | TcaFqCodel.CeThreshold => some fq.ce_threshold
  | TcaFqCodel.DropBatchSize => some fq.drop_batch_size
  | TcaFqCodel.MemoryLimit => some fq.memory_limit
  | _ => none

/-- The `for field in &self.order` loop of `emit_value`: for each kind,
write the 2-byte length (always 8), the 2-byte kind discriminant, then
the 4-byte field value, each in native byte order, advancing the write
offset by 8 per record. -/
def emit_loop (fq : FqCodel) (order : List TcaFqCodel) (buffer : List Nat)
    (offset : Nat) : Option (List Nat) :=
  match order with
  | [] => some buffer
  | field :: rest => do
    let b1 ← copyFromSlice buffer offset (u16_to_ne 8)
    let b2 ← copyFromSlice b1 (offset + 2) (u16_to_ne field.toU16)
    let v ← fieldValue fq field
    let b3 ← copyFromSlice b2 (offset + NLA_HEADER_LEN) (u32_to_ne v)
    emit_loop fq rest b3 (offset + NLA_HEADER_LEN + ATTR_LEN)

/-- `fn emit_value(&self, buffer: &mut [u8])`: the returned list is the
mutated buffer; `none` models a panic. -/
def FqCodel.emit_value (fq : FqCodel) (buffer : List Nat) : Option (List Nat) :=
  emit_loop fq fq.order buffer 0

/-! ## Specification-side helper definitions -/

/-- A kind that names one of the nine numeric fields, i.e. not one of the
two sentinels `Unspec` / `Max`. -/
def validKind (k : TcaFqCodel) : Prop :=
  k ≠ TcaFqCodel.Unspec ∧ k ≠ TcaFqCodel.Max

instance (k : TcaFqCodel) : Decidable (validKind k) := by
  unfold validKind; infer_instance

/-- Total read of the field selected by a kind (`0` for the sentinels,
which never carry a field). -/
def getField (fq : FqCodel) (k : TcaFqCodel) : Nat :=
  (fieldValue fq k).getD 0

/-- The state change of one successful decoder iteration: push the kind
onto the order record and (for a field kind) store the value. -/
def step (fq : FqCodel) (k : TcaFqCodel) (v : Nat) : FqCodel :=
  let fq1 := { fq with order := fq.order ++ [k] }
  match setField fq1 k v with
  | some fq2 => fq2
  | none => fq1

/-- Replay a list of (kind, value) records through `step`. -/
def stepFold (fq : FqCodel) (L : List (TcaFqCodel × Nat)) : FqCodel :=
  L.foldl (fun a q => step a q.1 q.2) fq

/-- One 8-byte wire record: length 8, raw kind number, 32-bit value, all
in native byte order. -/
def mkRecordBytes (kn v : Nat) : List Nat :=
  u16_to_ne 8 ++ u16_to_ne kn ++ u32_to_ne v

/-- Concatenation of 8-byte records built from raw kind numbers. -/
def encodeRaw : List (Nat × Nat) → List Nat
  | [] => []
  | q :: rest => mkRecordBytes q.1 q.2 ++ encodeRaw rest

/-- Concatenation of 8-byte records built from enumeration kinds. -/
def encodePairs (L : List (TcaFqCodel × Nat)) : List Nat :=
  encodeRaw (L.map (fun q => (q.1.toU16, q.2)))

/-- The value of the last record of kind `k` in a record list
(`0` when `k` never occurs). -/
def lastOccurrence (L : List (TcaFqCodel × Nat)) (k : TcaFqCodel) : Nat :=
  ((L.filter (fun q => q.1 = k)).map Prod.snd).getLast?.getD 0

/-! ## Basic lemmas: byte serialization, enumeration, fields -/

lemma u16_ne_roundtrip (v : Nat) (h : v < 65536) :
    u16_from_ne (v % 256) (v / 256 % 256) = v := by
  simp only [u16_from_ne]; omega

lemma u32_ne_roundtrip (v : Nat) :
    u32_from_ne (v % 256) (v / 256 % 256) (v / 65536 % 256) (v / 16777216 % 256) =
      v % 4294967296 := by
  simp only [u32_from_ne]; omega

lemma mkRecordBytes_length (kn v : Nat) : (mkRecordBytes kn v).length = 8 := rfl

lemma getD_lt_256 : ∀ (l : List Nat) (i : Nat), (∀ x ∈ l, x < 256) → l.getD i 0 < 256
  | [], i, _ => by simp [List.getD]
  | a :: l, 0, h => h a (List.mem_cons_self a l)
  | a :: l, i + 1, h =>
    getD_lt_256 l i (fun x hx => h x (List.mem_cons_of_mem a hx))

lemma fromU16_toU16 (k : TcaFqCodel) : TcaFqCodel.fromU16 k.toU16 = k := by
  cases k <;> rfl

lemma toU16_lt (k : TcaFqCodel) : k.toU16 < 65536 := by
  cases k <;> simp [TcaFqCodel.toU16]

lemma fromU16_ge_ten (kn : Nat) (h : 10 ≤ kn) :
    TcaFqCodel.fromU16 kn = TcaFqCodel.Max := by
  rcases kn with _|_|_|_|_|_|_|_|_|_|n
  all_goals first | omega | rfl

lemma fromU16_not_valid (kn : Nat) (h : kn = 0 ∨ 10 ≤ kn) :
    ¬ validKind (TcaFqCodel.fromU16 kn) := by
  rcases h with rfl | h
  · intro hv; exact hv.1 rfl
  · rw [fromU16_ge_ten kn h]; intro hv; exact hv.2 rfl

lemma fromU16_valid (kn : Nat) (h0 : kn ≠ 0) (h10 : kn < 10) :
    validKind (TcaFqCodel.fromU16 kn) := by
  rcases kn with _|_|_|_|_|_|_|_|_|_|n
  all_goals first | omega | decide

lemma setField_valid (fq : FqCodel) (k : TcaFqCodel) (v : Nat) (h : validKind k) :
    setField { fq with order := fq.order ++ [k] } k v = some (step fq k v) := by
  cases k
  · exact absurd rfl h.1
  all_goals first | rfl | exact absurd rfl h.2

lemma setField_sentinel (fq : FqCodel) (k : TcaFqCodel) (v : Nat) (h : ¬ validKind k) :
    setField fq k v = none := by
  cases k
  · rfl
  case Max => rfl
  all_goals exact absurd (by decide) h

lemma setField_some_valid {fq fq2 : FqCodel} {k : TcaFqCodel} {v : Nat}
    (h : setField fq k v = some fq2) : validKind k := by
  cases k <;> simp [setField] at h ⊢ <;> decide

lemma fieldValue_valid (fq : FqCodel) (k : TcaFqCodel) (h : validKind k) :
    fieldValue fq k = some (getField fq k) := by
  cases k
  · exact absurd rfl h.1
  all_goals first | rfl | exact absurd rfl h.2

lemma step_order (fq : FqCodel) (k : TcaFqCodel) (v : Nat) :
    (step fq k v).order = fq.order ++ [k] := by
  cases k <;> rfl

lemma getField_step (fq : FqCodel) (k' k : TcaFqCodel) (v : Nat) (hk : validKind k) :
    getField (step fq k' v) k = if k' = k then v else getField fq k := by
  cases k' <;> cases k <;>
    first
      | exact absurd rfl hk.1
      | exact absurd rfl hk.2
      | rfl

lemma getField_default (k : TcaFqCodel) : getField FqCodel.default k = 0 := by
  cases k <;> rfl


/-! ## Supporting lemmas -/


lemma attr_ok_of (data : List Nat)
    (h8 : 8 ≤ data.length)
    (hl0 : data.getD 0 0 = 8) (hl1 : data.getD 1 0 = 0) :
    unmarshal_fq_codel_attr data =
      Except.ok (u16_from_ne (data.getD 2 0) (data.getD 3 0),
        u32_from_ne (data.getD 4 0) (data.getD 5 0) (data.getD 6 0) (data.getD 7 0)) := by
  simp only [unmarshal_fq_codel_attr, NLA_HEADER_LEN, ATTR_LEN, hl0, hl1, u16_from_ne]
  norm_num
  split_ifs <;> first | rfl | omega


lemma attr_mkRecordBytes (kn v : Nat) (hk : kn < 65536) (rest : List Nat) :
    unmarshal_fq_codel_attr (mkRecordBytes kn v ++ rest) =
      Except.ok (kn, v % 4294967296) := by
  have e : mkRecordBytes kn v ++ rest =
      8 :: 0 :: (kn % 256) :: (kn / 256 % 256) :: (v % 256) :: (v / 256 % 256) ::
        (v / 65536 % 256) :: (v / 16777216 % 256) :: rest := by
    simp [mkRecordBytes, u16_to_ne, u32_to_ne]
  rw [e, attr_ok_of _ (by simp) (by simp) (by simp)]
  simp only [List.getD_cons_succ, List.getD_cons_zero]
  rw [u16_ne_roundtrip kn hk, u32_ne_roundtrip]

lemma loop_record (fq : FqCodel) (kn v : Nat) (hk : kn < 65536) (rest : List Nat) :
    unmarshal_loop fq (mkRecordBytes kn v ++ rest) =
      match setField { fq with order := fq.order ++ [TcaFqCodel.fromU16 kn] }
          (TcaFqCodel.fromU16 kn) (v % 4294967296) with
      | some fq2 => unmarshal_loop fq2 rest
      | none => Except.error "fq_codel: unknown attribute" := by
  rw [unmarshal_loop]
  rw [dif_neg (by simp [mkRecordBytes, u16_to_ne, u32_to_ne])]
  rw [attr_mkRecordBytes kn v hk rest]
  have hdrop : (mkRecordBytes kn v ++ rest).drop (NLA_HEADER_LEN + ATTR_LEN) = rest := by
    have : NLA_HEADER_LEN + ATTR_LEN = (mkRecordBytes kn v).length := rfl
    rw [this, List.drop_left]
  rw [hdrop]


lemma loop_record_valid (fq : FqCodel) (k : TcaFqCodel) (v : Nat) (hk : validKind k)
    (rest : List Nat) :
    unmarshal_loop fq (mkRecordBytes k.toU16 v ++ rest) =
      unmarshal_loop (step fq k (v % 4294967296)) rest := by
  rw [loop_record fq k.toU16 v (toU16_lt k) rest]
  simp only [fromU16_toU16, setField_valid fq k _ hk]

lemma loop_record_bad (fq : FqCodel) (kn v : Nat) (hkn : kn < 65536)
    (hbad : kn = 0 ∨ 10 ≤ kn) (rest : List Nat) :
    unmarshal_loop fq (mkRecordBytes kn v ++ rest) =
      Except.error "fq_codel: unknown attribute" := by
  rw [loop_record fq kn v hkn rest]
  simp only [setField_sentinel _ _ _ (fromU16_not_valid kn hbad)]

lemma encodePairs_cons (q : TcaFqCodel × Nat) (L : List (TcaFqCodel × Nat)) :
    encodePairs (q :: L) = mkRecordBytes q.1.toU16 q.2 ++ encodePairs L := rfl

lemma encodePairs_length : ∀ L : List (TcaFqCodel × Nat),
    (encodePairs L).length = 8 * L.length
  | [] => rfl
  | q :: L => by
    rw [encodePairs_cons]
    simp [encodePairs_length L, mkRecordBytes_length]
    ring

lemma stepFold_cons (fq : FqCodel) (q : TcaFqCodel × Nat) (L : List (TcaFqCodel × Nat)) :
    stepFold fq (q :: L) = stepFold (step fq q.1 q.2) L := rfl

lemma loop_encodePairs : ∀ (L : List (TcaFqCodel × Nat)) (fq : FqCodel),
    (∀ q ∈ L, validKind q.1 ∧ q.2 < 4294967296) →
    unmarshal_loop fq (encodePairs L) = Except.ok (stepFold fq L)
  | [], fq, _ => by
    rw [unmarshal_loop]
    rfl
  | q :: L, fq, h => by
    have hq := h q (List.mem_cons_self q L)
    rw [encodePairs_cons, stepFold_cons, loop_record_valid fq q.1 q.2 hq.1,
        Nat.mod_eq_of_lt hq.2]
    exact loop_encodePairs L _ (fun r hr => h r (List.mem_cons_of_mem q hr))

lemma stepFold_order : ∀ (L : List (TcaFqCodel × Nat)) (fq : FqCodel),
    (stepFold fq L).order = fq.order ++ L.map Prod.fst
  | [], fq => by simp [stepFold]
  | q :: L, fq => by
    rw [stepFold_cons, stepFold_order L (step fq q.1 q.2), step_order]
    simp

lemma getField_stepFold : ∀ (L : List (TcaFqCodel × Nat)) (fq : FqCodel) (k : TcaFqCodel),
    validKind k →
    getField (stepFold fq L) k =
      L.foldl (fun a q => if q.1 = k then q.2 else a) (getField fq k)
  | [], fq, k, _ => by simp [stepFold]
  | q :: L, fq, k, hk => by
    rw [stepFold_cons, getField_stepFold L (step fq q.1 q.2) k hk]
    simp only [List.foldl_cons, getField_step fq q.1 k q.2 hk]

lemma foldl_upd_map (g : TcaFqCodel → Nat) (k : TcaFqCodel) :
    ∀ (ks : List TcaFqCodel) (a : Nat),
    (ks.map (fun x => (x, g x))).foldl (fun a q => if q.1 = k then q.2 else a) a =
      if k ∈ ks then g k else a
  | [], a => by simp
  | x :: ks, a => by
    simp only [List.map_cons, List.foldl_cons]
    rw [foldl_upd_map g k ks _]
    by_cases hks : k ∈ ks
    · simp [hks]
    · by_cases hx : x = k
      · subst hx
        simp [hks]
      · simp only [List.mem_cons]
        rw [if_neg hks, if_neg hx,
          if_neg (fun h : k = x ∨ k ∈ ks => h.elim (fun h1 => hx h1.symm) hks)]

lemma foldl_upd_not_mem (k : TcaFqCodel) :
    ∀ (L : List (TcaFqCodel × Nat)) (a : Nat), k ∉ L.map Prod.fst →
    L.foldl (fun a q => if q.1 = k then q.2 else a) a = a
  | [], a, _ => rfl
  | q :: L, a, h => by
    simp only [List.map_cons, List.mem_cons, not_or] at h
    simp only [List.foldl_cons, if_neg (fun hq : q.1 = k => h.1 hq.symm)]
    exact foldl_upd_not_mem k L a h.2

lemma foldl_upd_lt (k : TcaFqCodel) (m : Nat) :
    ∀ (L : List (TcaFqCodel × Nat)) (a : Nat), (∀ q ∈ L, q.2 < m) → a < m →
    L.foldl (fun a q => if q.1 = k then q.2 else a) a < m
  | [], a, _, ha => ha
  | q :: L, a, h, ha => by
    simp only [List.foldl_cons]
    refine foldl_upd_lt k m L _ (fun r hr => h r (List.mem_cons_of_mem q hr)) ?_
    by_cases hq : q.1 = k
    · simp [hq]
      exact h q (List.mem_cons_self q L)
    · simpa [hq] using ha

lemma getLast?_cons_getD {A : Type} : ∀ (l : List A) (x a : A),
    ((x :: l).getLast?).getD a = (l.getLast?).getD x
  | [], x, a => rfl
  | y :: l, x, a => by
    rw [List.getLast?_cons_cons, getLast?_cons_getD l y a, getLast?_cons_getD l y x]

lemma foldl_upd_eq_last (k : TcaFqCodel) :
    ∀ (L : List (TcaFqCodel × Nat)) (a : Nat),
    L.foldl (fun a q => if q.1 = k then q.2 else a) a =
      (((L.filter (fun q => q.1 = k)).map Prod.snd).getLast?).getD a
  | [], a => by simp
  | q :: L, a => by
    by_cases hq : q.1 = k
    · have hf : List.filter (fun r => decide (r.1 = k)) (q :: L) =
          q :: List.filter (fun r => decide (r.1 = k)) L := by
        rw [List.filter_cons, if_pos (by simp [hq])]
      simp only [List.foldl_cons, if_pos hq, hf, List.map_cons, getLast?_cons_getD]
      exact foldl_upd_eq_last k L q.2
    · have hf : List.filter (fun r => decide (r.1 = k)) (q :: L) =
          List.filter (fun r => decide (r.1 = k)) L := by
        rw [List.filter_cons, if_neg (by simp [hq])]
      simp only [List.foldl_cons, if_neg hq, hf]
      exact foldl_upd_eq_last k L a


lemma eq_of_getField_order (p q : FqCodel)
    (hf : ∀ k, validKind k → getField p k = getField q k)
    (ho : p.order = q.order) : p = q := by
  obtain ⟨a1, a2, a3, a4, a5, a6, a7, a8, a9, ao⟩ := p
  obtain ⟨b1, b2, b3, b4, b5, b6, b7, b8, b9, bo⟩ := q
  have h1 := hf TcaFqCodel.Target (by decide)
  have h2 := hf TcaFqCodel.Limit (by decide)
  have h3 := hf TcaFqCodel.Interval (by decide)
  have h4 := hf TcaFqCodel.Ecn (by decide)
  have h5 := hf TcaFqCodel.Flows (by decide)
  have h6 := hf TcaFqCodel.Quantum (by decide)
  have h7 := hf TcaFqCodel.CeThreshold (by decide)
  have h8 := hf TcaFqCodel.DropBatchSize (by decide)
  have h9 := hf TcaFqCodel.MemoryLimit (by decide)
  simp only [getField, fieldValue, Option.getD_some] at h1 h2 h3 h4 h5 h6 h7 h8 h9
  simp_all

lemma attr_ok_inv {data : List Nat} {kn v : Nat}
    (h : unmarshal_fq_codel_attr data = Except.ok (kn, v)) :
    8 ≤ data.length ∧
    kn = u16_from_ne (data.getD 2 0) (data.getD 3 0) ∧
    v = u32_from_ne (data.getD 4 0) (data.getD 5 0) (data.getD 6 0) (data.getD 7 0) := by
  simp only [unmarshal_fq_codel_attr, NLA_HEADER_LEN, ATTR_LEN] at h
  split_ifs at h with h1 h2 h3 h4 h5 <;> try exact Except.noConfusion h
  injection h with h0
  have hk2 := congrArg Prod.fst h0
  have hv2 := congrArg Prod.snd h0
  exact ⟨by omega, hk2.symm, hv2.symm⟩

lemma attr_error_msg {data : List Nat} {e : String}
    (h : unmarshal_fq_codel_attr data = Except.error e) :
    e = "fq_codel: invalid data" ∨ e = "fq_codel: empty data" := by
  simp only [unmarshal_fq_codel_attr, NLA_HEADER_LEN, ATTR_LEN] at h
  split_ifs at h <;>
    first
      | (simp only [Except.error.injEq] at h; exact Or.inl h.symm)
      | (simp only [Except.error.injEq] at h; exact Or.inr h.symm)
      | exact Except.noConfusion h

lemma unmarshal_loop_ok_inv : ∀ (n : Nat) (data : List Nat), data.length ≤ n →
    ∀ (fq p : FqCodel), unmarshal_loop fq data = Except.ok p →
    ∃ L : List (TcaFqCodel × Nat),
      (∀ q ∈ L, validKind q.1) ∧
      p = stepFold fq L ∧ data.length = 8 * L.length ∧
      ((∀ x ∈ data, x < 256) → ∀ q ∈ L, q.2 < 4294967296) := by
  intro n
  induction n with
  | zero =>
    intro data hlen fq p hok
    have hdata : data = [] := List.eq_nil_of_length_eq_zero (Nat.le_zero.mp hlen)
    subst hdata
    rw [unmarshal_loop] at hok
    simp at hok
    exact ⟨[], by simp, by simp [stepFold, hok], by simp, by simp⟩
  | succ n ih =>
    intro data hlen fq p hok
    by_cases hnil : data = []
    · subst hnil
      rw [unmarshal_loop] at hok
      simp at hok
      exact ⟨[], by simp, by simp [stepFold, hok], by simp, by simp⟩
    · rw [unmarshal_loop, dif_neg hnil] at hok
      cases hattr : unmarshal_fq_codel_attr data with
      | error e =>
        rw [hattr] at hok
        exact Except.noConfusion hok
      | ok r =>
        obtain ⟨kn, v⟩ := r
        simp only [hattr] at hok
        obtain ⟨h8, hkn, hv⟩ := attr_ok_inv hattr
        cases hset : setField { fq with order := fq.order ++ [TcaFqCodel.fromU16 kn] }
            (TcaFqCodel.fromU16 kn) v with
        | none =>
          rw [hset] at hok
          exact Except.noConfusion hok
        | some fq2 =>
          rw [hset] at hok
          have hvalid := setField_some_valid hset
          have hfq2 : fq2 = step fq (TcaFqCodel.fromU16 kn) v := by
            rw [setField_valid _ _ _ hvalid] at hset
            exact (Option.some.injEq _ _ ▸ hset).symm
          have he8 : NLA_HEADER_LEN + ATTR_LEN = 8 := rfl
          rw [he8] at hok
          have hlrest : (data.drop 8).length ≤ n := by
            simp only [List.length_drop]; omega
          obtain ⟨L, hLv, hp, hlen8, hbnd⟩ := ih (data.drop 8) hlrest fq2 p hok
          refine ⟨(TcaFqCodel.fromU16 kn, v) :: L, ?_, ?_, ?_, ?_⟩
          · intro q hq
            rcases List.mem_cons.mp hq with rfl | hq
            · exact hvalid
            · exact hLv q hq
          · rw [stepFold_cons, ← hfq2]
            exact hp
          · simp only [List.length_drop] at hlen8
            simp only [List.length_cons]
            omega
          · intro hb q hq
            rcases List.mem_cons.mp hq with rfl | hq
            · have b4 := getD_lt_256 data 4 hb
              have b5 := getD_lt_256 data 5 hb
              have b6 := getD_lt_256 data 6 hb
              have b7 := getD_lt_256 data 7 hb
              simp only [u32_from_ne] at hv
              omega
            · exact hbnd (fun x hx => hb x (List.drop_subset 8 data hx)) q hq

lemma unmarshal_ok_inv {data : List Nat} {p : FqCodel}
    (h : unmarshal_fq_codel data = Except.ok p) :
    ∃ L : List (TcaFqCodel × Nat),
      (∀ q ∈ L, validKind q.1) ∧
      p = stepFold FqCodel.default L ∧ data.length = 8 * L.length ∧
      ((∀ x ∈ data, x < 256) → ∀ q ∈ L, q.2 < 4294967296) :=
  unmarshal_loop_ok_inv data.length data le_rfl FqCodel.default p h


lemma loop_not_mod8 : ∀ (n : Nat) (data : List Nat), data.length ≤ n →
    data.length % 8 ≠ 0 → ∀ fq : FqCodel,
    ∃ e, unmarshal_loop fq data = Except.error e ∧
      (e = "fq_codel: invalid data" ∨ e = "fq_codel: empty data" ∨
       e = "fq_codel: unknown attribute") := by
  intro n
  induction n with
  | zero =>
    intro data hlen hmod fq
    have : data = [] := List.eq_nil_of_length_eq_zero (Nat.le_zero.mp hlen)
    subst this
    simp at hmod
  | succ n ih =>
    intro data hlen hmod fq
    have hnil : data ≠ [] := by
      intro hd; subst hd; simp at hmod
    cases hattr : unmarshal_fq_codel_attr data with
    | error e =>
      have hstep : unmarshal_loop fq data = Except.error e := by
        rw [unmarshal_loop, dif_neg hnil]
        simp only [hattr]
      rcases attr_error_msg hattr with he | he
      · exact ⟨e, hstep, Or.inl he⟩
      · exact ⟨e, hstep, Or.inr (Or.inl he)⟩
    | ok r =>
      obtain ⟨kn, v⟩ := r
      obtain ⟨h8, -, -⟩ := attr_ok_inv hattr
      cases hset : setField { fq with order := fq.order ++ [TcaFqCodel.fromU16 kn] }
          (TcaFqCodel.fromU16 kn) v with
      | none =>
        have hstep : unmarshal_loop fq data =
            Except.error "fq_codel: unknown attribute" := by
          rw [unmarshal_loop, dif_neg hnil]
          simp only [hattr, hset]
        exact ⟨"fq_codel: unknown attribute", hstep, Or.inr (Or.inr rfl)⟩
      | some fq2 =>
        have he8 : NLA_HEADER_LEN + ATTR_LEN = 8 := rfl
        have hstep : unmarshal_loop fq data = unmarshal_loop fq2 (data.drop 8) := by
          rw [unmarshal_loop, dif_neg hnil]
          simp only [hattr, hset, he8]
        rw [hstep]
        have hlrest : (data.drop 8).length ≤ n := by
          simp only [List.length_drop]; omega
        have hmrest : (data.drop 8).length % 8 ≠ 0 := by
          simp only [List.length_drop]; omega
        exact ih (data.drop 8) hlrest hmrest fq2


lemma take_two_append (T M D : List Nat) (n : Nat) (hn : n = T.length + M.length) :
    (T ++ M ++ D).take n = T ++ M := by
  subst hn
  rw [List.append_assoc, List.take_append, List.take_left]

lemma drop_two_append_add (T M D : List Nat) (n j : Nat)
    (hn : n = T.length + M.length + j) :
    (T ++ M ++ D).drop n = D.drop j := by
  subst hn
  rw [List.append_assoc]
  have e : T.length + M.length + j = T.length + (M.length + j) := by omega
  rw [e, List.drop_append, List.drop_append]

lemma copyFromSlice_some (buffer : List Nat) (offset : Nat) (src : List Nat)
    (h : offset + src.length ≤ buffer.length) :
    copyFromSlice buffer offset src =
      some (buffer.take offset ++ src ++ buffer.drop (offset + src.length)) := by
  rw [copyFromSlice, if_pos h]

lemma emit_loop_cons (fq : FqCodel) (k : TcaFqCodel) (rest : List TcaFqCodel)
    (buffer : List Nat) (off : Nat) (hk : validKind k)
    (h : off + 8 ≤ buffer.length) :
    emit_loop fq (k :: rest) buffer off =
      emit_loop fq rest
        (buffer.take off ++ mkRecordBytes k.toU16 (getField fq k) ++
          buffer.drop (off + 8))
        (off + 8) := by
  have hoff : off ≤ buffer.length := by omega
  set T := buffer.take off with hT
  set A := u16_to_ne 8 with hA
  set B := u16_to_ne k.toU16 with hB
  set V := u32_to_ne (getField fq k) with hV
  have htk : T.length = off := List.length_take_of_le hoff
  have hl2 : A.length = 2 := rfl
  have hlk : B.length = 2 := rfl
  have hlv : V.length = 4 := rfl
  have h1 : copyFromSlice buffer off A = some (T ++ A ++ buffer.drop (off + 2)) := by
    rw [copyFromSlice_some buffer off A (by rw [hl2]; omega), hl2]
  have hlen1 : (T ++ A ++ buffer.drop (off + 2)).length = buffer.length := by
    simp only [List.length_append, List.length_drop, htk, hl2]
    omega
  have e2a : (T ++ A ++ buffer.drop (off + 2)).take (off + 2) = T ++ A :=
    take_two_append T A _ (off + 2) (by rw [htk, hl2])
  have e2b : (T ++ A ++ buffer.drop (off + 2)).drop (off + 2 + B.length) =
      buffer.drop (off + 4) := by
    rw [hlk]
    rw [drop_two_append_add T A _ (off + 2 + 2) 2 (by rw [htk, hl2])]
    rw [List.drop_drop]
  have h2 : copyFromSlice (T ++ A ++ buffer.drop (off + 2)) (off + 2) B =
      some ((T ++ A) ++ B ++ buffer.drop (off + 4)) := by
    rw [copyFromSlice_some _ (off + 2) B (by rw [hlk, hlen1]; omega), e2a, e2b]
  have hlen2 : ((T ++ A) ++ B ++ buffer.drop (off + 4)).length = buffer.length := by
    simp only [List.length_append, List.length_drop, htk, hl2, hlk]
    omega
  have e3a : ((T ++ A) ++ B ++ buffer.drop (off + 4)).take (off + 4) = (T ++ A) ++ B :=
    take_two_append (T ++ A) B _ (off + 4)
      (by simp only [List.length_append, htk, hl2, hlk])
  have e3b : ((T ++ A) ++ B ++ buffer.drop (off + 4)).drop (off + 4 + V.length) =
      buffer.drop (off + 8) := by
    rw [hlv]
    rw [drop_two_append_add (T ++ A) B _ (off + 4 + 4) 4
      (by simp only [List.length_append, htk, hl2, hlk])]
    rw [List.drop_drop]
  have h3 : copyFromSlice ((T ++ A) ++ B ++ buffer.drop (off + 4)) (off + 4) V =
      some (((T ++ A) ++ B) ++ V ++ buffer.drop (off + 8)) := by
    rw [copyFromSlice_some _ (off + 4) V (by rw [hlv, hlen2]; omega), e3a, e3b]
  rw [emit_loop]
  rw [h1]
  simp only [Option.bind_eq_bind, Option.some_bind]
  rw [h2]
  simp only [Option.some_bind]
  rw [fieldValue_valid fq k hk]
  simp only [Option.some_bind]
  have he4 : off + NLA_HEADER_LEN = off + 4 := rfl
  rw [he4, h3]
  simp only [Option.some_bind]
  have he8 : off + 4 + ATTR_LEN = off + 8 := rfl
  rw [he8]
  have eL : ((T ++ A) ++ B) ++ V ++ buffer.drop (off + 8) =
      T ++ mkRecordBytes k.toU16 (getField fq k) ++ buffer.drop (off + 8) := by
    simp only [mkRecordBytes, hA, hB, hV, List.append_assoc]
  rw [eL]


lemma emit_loop_spec : ∀ (order : List TcaFqCodel) (fq : FqCodel)
    (buffer : List Nat) (off : Nat),
    (∀ k ∈ order, validKind k) → off + 8 * order.length ≤ buffer.length →
    emit_loop fq order buffer off =
      some (buffer.take off ++
            encodePairs (order.map (fun k => (k, getField fq k))) ++
            buffer.drop (off + 8 * order.length))
  | [], fq, buffer, off, _, h => by
    simp only [List.map_nil, List.length_nil, Nat.mul_zero, Nat.add_zero]
    rw [emit_loop]
    rw [show encodePairs [] = [] from rfl, List.append_nil, List.take_append_drop]
  | k :: rest, fq, buffer, off, hv, h => by
    have hk := hv k (List.mem_cons_self k rest)
    have hle : off + 8 ≤ buffer.length := by
      simp only [List.length_cons] at h
      omega
    rw [emit_loop_cons fq k rest buffer off hk hle]
    have hoff : off ≤ buffer.length := by omega
    set T := buffer.take off with hT
    set R := mkRecordBytes k.toU16 (getField fq k) with hR
    set D := buffer.drop (off + 8) with hD
    have htk : T.length = off := List.length_take_of_le hoff
    have hrk : R.length = 8 := mkRecordBytes_length _ _
    have hlen : (T ++ R ++ D).length = buffer.length := by
      have hDl : D.length = buffer.length - (off + 8) := by
        rw [hD]; exact List.length_drop _ _
      simp only [List.length_append, htk, hrk, hDl]
      omega
    rw [emit_loop_spec rest fq (T ++ R ++ D) (off + 8)
      (fun x hx => hv x (List.mem_cons_of_mem k hx))
      (by rw [hlen]; simp only [List.length_cons] at h; omega)]
    have ea : (T ++ R ++ D).take (off + 8) = T ++ R :=
      take_two_append T R D (off + 8) (by rw [htk, hrk])
    have eb : (T ++ R ++ D).drop (off + 8 + 8 * rest.length) =
        buffer.drop (off + 8 * (k :: rest).length) := by
      rw [drop_two_append_add T R D (off + 8 + 8 * rest.length) (8 * rest.length)
        (by rw [htk, hrk])]
      rw [hD, List.drop_drop]
      congr 1
      simp only [List.length_cons]
      ring
    rw [ea, eb]
    rw [show (k :: rest).map (fun x => (x, getField fq x)) =
        (k, getField fq k) :: rest.map (fun x => (x, getField fq x)) from rfl]
    rw [encodePairs_cons]
    simp only [List.append_assoc]

lemma emit_value_spec (fq : FqCodel) (buffer : List Nat)
    (hv : ∀ k ∈ fq.order, validKind k)
    (h : 8 * fq.order.length ≤ buffer.length) :
    fq.emit_value buffer =
      some (encodePairs (fq.order.map (fun k => (k, getField fq k))) ++
            buffer.drop (8 * fq.order.length)) := by
  rw [FqCodel.emit_value, emit_loop_spec fq.order fq buffer 0 hv (by omega)]
  simp




/-! ## Claim theorems -/

/-- C8: decoding the 16-byte buffer holding the two concatenated
native-byte-order records [len=8, kind=1 (Target), value=5000] then
[len=8, kind=2 (Limit), value=10240] succeeds and yields target=5000,
limit=10240, all seven other fields 0, and order record
[Target, Limit]. -/
theorem decode_two_record_example :
    unmarshal_fq_codel [8, 0, 1, 0, 136, 19, 0, 0, 8, 0, 2, 0, 0, 40, 0, 0] =
      Except.ok ⟨5000, 10240, 0, 0, 0, 0, 0, 0, 0,
        [TcaFqCodel.Target, TcaFqCodel.Limit]⟩ := by
  simp [unmarshal_fq_codel, unmarshal_loop, unmarshal_fq_codel_attr, u16_from_ne,
    u32_from_ne, NLA_HEADER_LEN, ATTR_LEN, TcaFqCodel.fromU16, setField,
    FqCodel.default]

/-- C2 (counterexample): a parameter set whose order record has nine
entries — all nine field kinds — is within the claim's 0..9 range, yet
`emit_value` on a 64-byte buffer faults (the ninth record starts at
offset 64), and so does a one-entry order record holding the sentinel
`Unspec`; the claim as stated is false for such parameter sets. -/
theorem emit_nine_entries_faults :
    (FqCodel.mk 0 0 0 0 0 0 0 0 0
        [TcaFqCodel.Target, TcaFqCodel.Limit, TcaFqCodel.Interval,
         TcaFqCodel.Ecn, TcaFqCodel.Flows, TcaFqCodel.Quantum,
         TcaFqCodel.CeThreshold, TcaFqCodel.DropBatchSize,
         TcaFqCodel.MemoryLimit]).order.length ≤ 9 ∧
    FqCodel.emit_value
      (FqCodel.mk 0 0 0 0 0 0 0 0 0
        [TcaFqCodel.Target, TcaFqCodel.Limit, TcaFqCodel.Interval,
         TcaFqCodel.Ecn, TcaFqCodel.Flows, TcaFqCodel.Quantum,
         TcaFqCodel.CeThreshold, TcaFqCodel.DropBatchSize,
         TcaFqCodel.MemoryLimit]) (List.replicate 64 0) = none ∧
    FqCodel.emit_value (FqCodel.mk 0 0 0 0 0 0 0 0 0 [TcaFqCodel.Unspec])
      (List.replicate 64 0) = none := by
  refine ⟨by decide, rfl, rfl⟩

/-- C2 (amended): for every parameter set whose order record has between
0 and 8 entries, each naming one of the nine numeric fields, `value_len`
returns exactly 64 and `emit_value` completes without fault on a 64-byte
buffer. -/
theorem value_len_64_and_emit_succeeds (fq : FqCodel) (buffer : List Nat)
    (hord : fq.order.length ≤ 8) (hv : ∀ k ∈ fq.order, validKind k)
    (hbuf : buffer.length = 64) :
    fq.value_len = 64 ∧ ∃ out, fq.emit_value buffer = some out :=
  ⟨rfl, ⟨_, emit_value_spec fq buffer hv (by omega)⟩⟩

/-- C2 (witness): the amended statement at a concrete two-entry
parameter set and the all-zero 64-byte buffer. -/
theorem value_len_64_and_emit_succeeds_witness :
    (FqCodel.mk 1 2 0 0 0 0 0 0 0 [TcaFqCodel.Target, TcaFqCodel.Limit]).value_len = 64 ∧
    ∃ out, (FqCodel.mk 1 2 0 0 0 0 0 0 0
      [TcaFqCodel.Target, TcaFqCodel.Limit]).emit_value (List.replicate 64 0) = some out :=
  value_len_64_and_emit_succeeds
    (FqCodel.mk 1 2 0 0 0 0 0 0 0 [TcaFqCodel.Target, TcaFqCodel.Limit])
    (List.replicate 64 0) (by decide) (by decide) (by decide)

/-- C4 (counterexample): violating validation (1) (a 3-byte buffer,
`TruncatedHeader`) and violating validation (2) (declared length 20
exceeding the 8 remaining bytes, `LengthExceedsBuffer`) produce the
SAME error value `"fq_codel: invalid data"`, so the five violations do
not produce five distinct error values as the claim states. -/
theorem length_errors_share_message :
    unmarshal_fq_codel [0, 0, 0] = Except.error "fq_codel: invalid data" ∧
    unmarshal_fq_codel [20, 0, 1, 0, 0, 0, 0, 0] =
      Except.error "fq_codel: invalid data" := by
  constructor
  · simp [unmarshal_fq_codel, unmarshal_loop, unmarshal_fq_codel_attr,
      NLA_HEADER_LEN]
  · simp [unmarshal_fq_codel, unmarshal_loop, unmarshal_fq_codel_attr,
      u16_from_ne, NLA_HEADER_LEN, ATTR_LEN]

/-- C4 (amended): per record, decode performs the five validations in
the claimed order — (1) at least 4 bytes remain, (2) declared length at
most the remaining bytes, (3) declared length nonzero, (4) declared
length at least 4, (5) declared length minus 4 exactly 4 — but the five
violations produce only two distinct error values: violation (3) yields
`"fq_codel: empty data"` while violations (1), (2), (4) and (5) all
yield the identical `"fq_codel: invalid data"`. -/
theorem validation_order_and_messages (data : List Nat) :
    (data.length < 4 →
      unmarshal_fq_codel_attr data = Except.error "fq_codel: invalid data") ∧
    (4 ≤ data.length →
      data.length < u16_from_ne (data.getD 0 0) (data.getD 1 0) →
      unmarshal_fq_codel_attr data = Except.error "fq_codel: invalid data") ∧
    (4 ≤ data.length →
      u16_from_ne (data.getD 0 0) (data.getD 1 0) ≤ data.length →
      u16_from_ne (data.getD 0 0) (data.getD 1 0) = 0 →
      unmarshal_fq_codel_attr data = Except.error "fq_codel: empty data") ∧
    (4 ≤ data.length →
      u16_from_ne (data.getD 0 0) (data.getD 1 0) ≤ data.length →
      u16_from_ne (data.getD 0 0) (data.getD 1 0) ≠ 0 →
      u16_from_ne (data.getD 0 0) (data.getD 1 0) < 4 →
      unmarshal_fq_codel_attr data = Except.error "fq_codel: invalid data") ∧
    (4 ≤ data.length →
      u16_from_ne (data.getD 0 0) (data.getD 1 0) ≤ data.length →
      4 ≤ u16_from_ne (data.getD 0 0) (data.getD 1 0) →
      u16_from_ne (data.getD 0 0) (data.getD 1 0) - 4 ≠ 4 →
      unmarshal_fq_codel_attr data = Except.error "fq_codel: invalid data") := by
  refine ⟨?_, ?_, ?_, ?_, ?_⟩ <;>
    · intros
      simp only [unmarshal_fq_codel_attr, NLA_HEADER_LEN, ATTR_LEN]
      split_ifs <;> first | rfl | omega

/-- C4 (witness): the amended statement applied at a 3-byte buffer
(validation 1) and at a zero-length record (validation 3). -/
theorem validation_order_and_messages_witness :
    unmarshal_fq_codel_attr [0, 0, 0] = Except.error "fq_codel: invalid data" ∧
    unmarshal_fq_codel_attr [0, 0, 1, 0, 9, 9, 9, 9] =
      Except.error "fq_codel: empty data" :=
  ⟨(validation_order_and_messages [0, 0, 0]).1 (by decide),
   (validation_order_and_messages [0, 0, 1, 0, 9, 9, 9, 9]).2.2.1
     (by decide) (by decide) (by decide)⟩


lemma loop_encodeRaw_bad : ∀ (L : List (Nat × Nat)) (fq : FqCodel),
    (∀ q ∈ L, q.1 < 65536) → (∃ q ∈ L, q.1 = 0 ∨ 10 ≤ q.1) →
    unmarshal_loop fq (encodeRaw L) = Except.error "fq_codel: unknown attribute"
  | [], _, _, hbad => by simp at hbad
  | q :: L, fq, hk, hbad => by
    have hq16 := hk q (List.mem_cons_self q L)
    rw [show encodeRaw (q :: L) = mkRecordBytes q.1 q.2 ++ encodeRaw L from rfl]
    by_cases hqbad : q.1 = 0 ∨ 10 ≤ q.1
    · exact loop_record_bad fq q.1 q.2 hq16 hqbad _
    · push_neg at hqbad
      have hv := fromU16_valid q.1 hqbad.1 hqbad.2
      rw [loop_record fq q.1 q.2 hq16]
      simp only [setField_valid _ _ _ hv]
      refine loop_encodeRaw_bad L _ (fun r hr => hk r (List.mem_cons_of_mem q hr)) ?_
      rcases hbad with ⟨r, hr, hrbad⟩
      rcases List.mem_cons.mp hr with rfl | hr2
      · exact absurd hrbad (by push_neg; exact hqbad)
      · exact ⟨r, hr2, hrbad⟩

/-- C3: for every input buffer made of structurally valid 8-byte records
in which at least one record carries kind 0 (Unspecified) or kind ≥ 10,
the whole decode fails with the unknown-attribute error
(`"fq_codel: unknown attribute"`), regardless of the other records; no
parameter set is returned. -/
theorem unknown_kind_rejected (L : List (Nat × Nat))
    (hk : ∀ q ∈ L, q.1 < 65536)
    (hbad : ∃ q ∈ L, q.1 = 0 ∨ 10 ≤ q.1) :
    unmarshal_fq_codel (encodeRaw L) =
      Except.error "fq_codel: unknown attribute" :=
  loop_encodeRaw_bad L FqCodel.default hk hbad

/-- C3 (witness): the single record [len=8, kind=11, value=0] is
rejected with the unknown-attribute error. -/
theorem unknown_kind_rejected_witness :
    unmarshal_fq_codel [8, 0, 11, 0, 0, 0, 0, 0] =
      Except.error "fq_codel: unknown attribute" :=
  unknown_kind_rejected [(11, 0)] (by decide) (by decide)

/-- C5 (counterexample): the 9-byte buffer consisting of the valid-length
record [len=8, kind=0, value=0] followed by one dangling byte has length
not a multiple of 8, yet decode fails with the unknown-attribute error,
not with one of the length-check errors as the claim states. -/
theorem non_multiple_fails_with_unknown_kind :
    (([8, 0, 0, 0, 0, 0, 0, 0, 0] : List Nat).length % 8 ≠ 0) ∧
    unmarshal_fq_codel [8, 0, 0, 0, 0, 0, 0, 0, 0] =
      Except.error "fq_codel: unknown attribute" ∧
    ("fq_codel: unknown attribute" ≠ "fq_codel: invalid data" ∧
     "fq_codel: unknown attribute" ≠ "fq_codel: empty data") := by
  refine ⟨by decide, ?_, by decide⟩
  simp [unmarshal_fq_codel, unmarshal_loop, unmarshal_fq_codel_attr, u16_from_ne,
    u32_from_ne, NLA_HEADER_LEN, ATTR_LEN, TcaFqCodel.fromU16, setField,
    FqCodel.default]

/-- C5 (amended): decode advances its cursor by exactly 8 bytes per
record regardless of the record's declared length field (each nonempty
iteration either fails or continues on the input minus its first 8
bytes), and every buffer whose length is not a multiple of 8 fails to
decode — with one of the two length-check error messages or, if a
complete record with an invalid kind is hit first, with the
unknown-attribute error — and never returns a parameter set. -/
theorem non_multiple_of_eight_always_errors (data : List Nat)
    (h : data.length % 8 ≠ 0) :
    (∃ e, unmarshal_fq_codel data = Except.error e ∧
      (e = "fq_codel: invalid data" ∨ e = "fq_codel: empty data" ∨
       e = "fq_codel: unknown attribute")) ∧
    (∀ (fq : FqCodel) (d : List Nat), d ≠ [] →
      (∃ e, unmarshal_loop fq d = Except.error e) ∨
      (∃ fq2, unmarshal_loop fq d = unmarshal_loop fq2 (d.drop 8))) := by
  constructor
  · exact loop_not_mod8 data.length data le_rfl h FqCodel.default
  · intro fq d hnil
    cases hattr : unmarshal_fq_codel_attr d with
    | error e =>
      left
      exact ⟨e, by rw [unmarshal_loop, dif_neg hnil]; simp only [hattr]⟩
    | ok r =>
      obtain ⟨kn, v⟩ := r
      cases hset : setField { fq with order := fq.order ++ [TcaFqCodel.fromU16 kn] }
          (TcaFqCodel.fromU16 kn) v with
      | none =>
        left
        exact ⟨"fq_codel: unknown attribute",
          by rw [unmarshal_loop, dif_neg hnil]; simp only [hattr, hset]⟩
      | some fq2 =>
        right
        refine ⟨fq2, ?_⟩
        rw [unmarshal_loop, dif_neg hnil]
        have he8 : NLA_HEADER_LEN + ATTR_LEN = 8 := rfl
        simp only [hattr, hset, he8]

/-- C5 (witness): the amended statement applied to a 1-byte buffer. -/
theorem non_multiple_of_eight_always_errors_witness :
    (∃ e, unmarshal_fq_codel [0] = Except.error e ∧
      (e = "fq_codel: invalid data" ∨ e = "fq_codel: empty data" ∨
       e = "fq_codel: unknown attribute")) ∧
    (∀ (fq : FqCodel) (d : List Nat), d ≠ [] →
      (∃ e, unmarshal_loop fq d = Except.error e) ∨
      (∃ fq2, unmarshal_loop fq d = unmarshal_loop fq2 (d.drop 8))) :=
  non_multiple_of_eight_always_errors [0] (by decide)

/-- C6: decoding a buffer of structurally valid records whose kinds all
name fields appends one kind per record to the order record in input
order; the field selected by a kind holds the value of the last record
of that kind, while the order record keeps every occurrence. -/
theorem decode_order_and_last_occurrence (pairs : List (TcaFqCodel × Nat))
    (h : ∀ q ∈ pairs, validKind q.1 ∧ q.2 < 4294967296) :
    ∃ p, unmarshal_fq_codel (encodePairs pairs) = Except.ok p ∧
      p.order = pairs.map Prod.fst ∧
      (∀ k, validKind k → getField p k = lastOccurrence pairs k) := by
  refine ⟨stepFold FqCodel.default pairs, loop_encodePairs pairs FqCodel.default h,
    ?_, ?_⟩
  · rw [stepFold_order]
    rfl
  · intro k hk
    rw [getField_stepFold pairs FqCodel.default k hk, getField_default,
        foldl_upd_eq_last]
    rfl

/-- C6 (witness): two Target records; the order record keeps both
occurrences and the target field holds the later value. -/
theorem decode_order_and_last_occurrence_witness :
    ∃ p, unmarshal_fq_codel
        [8, 0, 1, 0, 1, 0, 0, 0, 8, 0, 1, 0, 2, 0, 0, 0] = Except.ok p ∧
      p.order = [TcaFqCodel.Target, TcaFqCodel.Target] ∧
      (∀ k, validKind k →
        getField p k =
          lastOccurrence [(TcaFqCodel.Target, 1), (TcaFqCodel.Target, 2)] k) :=
  decode_order_and_last_occurrence
    [(TcaFqCodel.Target, 1), (TcaFqCodel.Target, 2)] (by decide)

/-- C7: every parameter set returned by a successful decode has an order
record containing only the nine field kinds — never the sentinels — and
its length is the number of 8-byte records consumed, i.e. the input
length divided by 8. -/
theorem decode_order_invariant (data : List Nat) (p : FqCodel)
    (h : unmarshal_fq_codel data = Except.ok p) :
    (∀ k ∈ p.order, validKind k) ∧ p.order.length = data.length / 8 := by
  obtain ⟨L, hLk, hp, hlen, -⟩ := unmarshal_ok_inv h
  have horder : p.order = L.map Prod.fst := by
    rw [hp, stepFold_order]
    rfl
  constructor
  · rw [horder]
    intro k hk
    obtain ⟨q, hq, rfl⟩ := List.mem_map.mp hk
    exact hLk q hq
  · rw [horder, List.length_map]
    omega

/-- C7 (witness): the invariant at a single-record buffer. -/
theorem decode_order_invariant_witness :
    (∀ k ∈ (FqCodel.mk 3 0 0 0 0 0 0 0 0 [TcaFqCodel.Target]).order, validKind k) ∧
    (FqCodel.mk 3 0 0 0 0 0 0 0 0 [TcaFqCodel.Target]).order.length =
      ([8, 0, 1, 0, 3, 0, 0, 0] : List Nat).length / 8 :=
  decode_order_invariant [8, 0, 1, 0, 3, 0, 0, 0]
    (FqCodel.mk 3 0 0 0 0 0 0 0 0 [TcaFqCodel.Target])
    (by simp [unmarshal_fq_codel, unmarshal_loop, unmarshal_fq_codel_attr,
      u16_from_ne, u32_from_ne, NLA_HEADER_LEN, ATTR_LEN, TcaFqCodel.fromU16,
      setField, FqCodel.default])


/-- C9: encoding a parameter set with order record [Flows], flows=1024
and all other fields default writes, into any 64-byte buffer, first
8 bytes equal to the native-byte-order record [len=8, kind=5 (Flows),
value=1024], leaving the remaining 56 bytes as they were (unconstrained
by the contract). -/
theorem emit_flows_example (buffer : List Nat) (h : buffer.length = 64) :
    ∃ out, FqCodel.emit_value (FqCodel.mk 0 0 0 0 1024 0 0 0 0 [TcaFqCodel.Flows])
        buffer = some out ∧
      out.length = 64 ∧
      out.take 8 = [8, 0, 5, 0, 0, 4, 0, 0] ∧
      out.drop 8 = buffer.drop 8 := by
  have hemit := emit_value_spec (FqCodel.mk 0 0 0 0 1024 0 0 0 0 [TcaFqCodel.Flows])
    buffer (by decide) (by rw [h]; decide)
  have henc : encodePairs
      ((FqCodel.mk 0 0 0 0 1024 0 0 0 0 [TcaFqCodel.Flows]).order.map
        (fun k => (k, getField (FqCodel.mk 0 0 0 0 1024 0 0 0 0 [TcaFqCodel.Flows]) k))) =
      [8, 0, 5, 0, 0, 4, 0, 0] := rfl
  have h81 : 8 * (FqCodel.mk 0 0 0 0 1024 0 0 0 0 [TcaFqCodel.Flows]).order.length = 8 :=
    rfl
  rw [henc, h81] at hemit
  refine ⟨_, hemit, ?_, ?_, ?_⟩
  · simp [List.length_drop, h]
  · exact List.take_left [8, 0, 5, 0, 0, 4, 0, 0] (List.drop 8 buffer)
  · exact List.drop_left [8, 0, 5, 0, 0, 4, 0, 0] (List.drop 8 buffer)

/-- C9 (witness): the statement at the all-zero 64-byte buffer. -/
theorem emit_flows_example_witness :
    ∃ out, FqCodel.emit_value (FqCodel.mk 0 0 0 0 1024 0 0 0 0 [TcaFqCodel.Flows])
        (List.replicate 64 0) = some out ∧
      out.length = 64 ∧
      out.take 8 = [8, 0, 5, 0, 0, 4, 0, 0] ∧
      out.drop 8 = (List.replicate 64 0).drop 8 :=
  emit_flows_example (List.replicate 64 0) (by decide)

/-- C10: for every parameter set whose order record contains only the
nine field kinds and every caller buffer with room for its records,
`emit_value` writes exactly 8 × len(order) bytes at the start of the
buffer — the concatenation of its records — and leaves every byte at
offset 8 × len(order) and beyond unchanged; in particular it does not
zero the unwritten trailing bytes. -/
theorem emit_frame_effect (fq : FqCodel) (buffer : List Nat)
    (hv : ∀ k ∈ fq.order, validKind k)
    (h : 8 * fq.order.length ≤ buffer.length) :
    ∃ out, fq.emit_value buffer = some out ∧
      out.length = buffer.length ∧
      out.take (8 * fq.order.length) =
        encodePairs (fq.order.map (fun k => (k, getField fq k))) ∧
      out.drop (8 * fq.order.length) = buffer.drop (8 * fq.order.length) := by
  have hemit := emit_value_spec fq buffer hv h
  have hel : (encodePairs (fq.order.map (fun k => (k, getField fq k)))).length =
      8 * fq.order.length := by
    rw [encodePairs_length, List.length_map]
  refine ⟨_, hemit, ?_, ?_, ?_⟩
  · simp only [List.length_append, List.length_drop, hel]
    omega
  · rw [← hel, List.take_left]
  · rw [← hel, List.drop_left]

/-- C10 (witness): a one-record parameter set emitted into a 16-byte
buffer of ones; the trailing 8 bytes keep their old value 1 (they are
not zeroed). -/
theorem emit_frame_effect_witness :
    ∃ out, FqCodel.emit_value (FqCodel.mk 7 0 0 0 0 0 0 0 0 [TcaFqCodel.Target])
        (List.replicate 16 1) = some out ∧
      out.length = 16 ∧
      out.take 8 = [8, 0, 1, 0, 7, 0, 0, 0] ∧
      out.drop 8 = [1, 1, 1, 1, 1, 1, 1, 1] :=
  emit_frame_effect (FqCodel.mk 7 0 0 0 0 0 0 0 0 [TcaFqCodel.Target])
    (List.replicate 16 1) (by decide) (by decide)

/-- C1: for every byte buffer that decodes to a parameter set `p`,
emitting `p` into any buffer large enough for its records
(8 × len(order) bytes; with the contractual 64-byte buffer this covers
every order record of up to 8 entries) succeeds, and decoding the
emitted record bytes again returns a parameter set whose nine field
values and order record are identical to those of `p`. -/
theorem roundtrip_decode_emit_decode (b : List Nat) (p : FqCodel)
    (buf : List Nat) (hb : ∀ x ∈ b, x < 256)
    (hdec : unmarshal_fq_codel b = Except.ok p)
    (hbuf : 8 * p.order.length ≤ buf.length) :
    ∃ out, p.emit_value buf = some out ∧
      unmarshal_fq_codel (out.take (8 * p.order.length)) = Except.ok p := by
  obtain ⟨L, hLk, hp, hlen, hbound⟩ := unmarshal_ok_inv hdec
  have hvals := hbound hb
  have horder : p.order = L.map Prod.fst := by
    rw [hp, stepFold_order]
    rfl
  have hordv : ∀ k ∈ p.order, validKind k := by
    rw [horder]
    intro k hk
    obtain ⟨q, hq, rfl⟩ := List.mem_map.mp hk
    exact hLk q hq
  have hfb : ∀ k, validKind k → getField p k < 4294967296 := by
    intro k hk
    rw [hp, getField_stepFold L FqCodel.default k hk, getField_default]
    exact foldl_upd_lt k _ L 0 hvals (by norm_num)
  have hemit := emit_value_spec p buf hordv hbuf
  refine ⟨_, hemit, ?_⟩
  have hel : (encodePairs (p.order.map (fun k => (k, getField p k)))).length =
      8 * p.order.length := by
    rw [encodePairs_length, List.length_map]
  rw [← hel, List.take_left]
  have hL2v : ∀ q ∈ p.order.map (fun k => (k, getField p k)),
      validKind q.1 ∧ q.2 < 4294967296 := by
    intro q hq
    obtain ⟨k, hk, rfl⟩ := List.mem_map.mp hq
    exact ⟨hordv k hk, hfb k (hordv k hk)⟩
  rw [unmarshal_fq_codel, loop_encodePairs _ FqCodel.default hL2v]
  congr 1
  apply eq_of_getField_order
  · intro k hk
    rw [getField_stepFold _ FqCodel.default k hk, getField_default,
        foldl_upd_map (getField p) k p.order 0]
    by_cases hmem : k ∈ p.order
    · rw [if_pos hmem]
    · rw [if_neg hmem]
      rw [hp, getField_stepFold L FqCodel.default k hk, getField_default]
      rw [foldl_upd_not_mem k L 0 (horder ▸ hmem)]
  · rw [stepFold_order, List.map_map]
    rw [show (Prod.fst ∘ fun k : TcaFqCodel => (k, getField p k)) =
      (fun k => k) from rfl]
    simp [FqCodel.default]

/-- C1 (witness): the round trip at the single-record buffer
[len=8, kind=1 (Target), value=5000] and the all-zero 64-byte emit
buffer. -/
theorem roundtrip_decode_emit_decode_witness :
    ∃ out, FqCodel.emit_value (FqCodel.mk 5000 0 0 0 0 0 0 0 0 [TcaFqCodel.Target])
        (List.replicate 64 0) = some out ∧
      unmarshal_fq_codel (out.take 8) =
        Except.ok (FqCodel.mk 5000 0 0 0 0 0 0 0 0 [TcaFqCodel.Target]) :=
  roundtrip_decode_emit_decode [8, 0, 1, 0, 136, 19, 0, 0]
    (FqCodel.mk 5000 0 0 0 0 0 0 0 0 [TcaFqCodel.Target])
    (List.replicate 64 0) (by decide)
    (by simp [unmarshal_fq_codel, unmarshal_loop, unmarshal_fq_codel_attr,
      u16_from_ne, u32_from_ne, NLA_HEADER_LEN, ATTR_LEN, TcaFqCodel.fromU16,
      setField, FqCodel.default])
    (by decide)


end FqCodelCodec
